import Mathlib

/-!
Verification development for the merge engine of UFEDKMLstacker
(`UFEDKMLstacker.py`).  The Python source is shallowly embedded: pure
helpers become Lean functions, the per-placemark loop of
`process_kml_file` becomes an explicit state fold in which the
exceptions the source catches at file granularity are modelled with
`Except`, and the external libraries the source calls (`arrow`,
`datetime`, `os.path`, `lxml` iteration) are modelled by executable
Lean functions documented at their definitions.
-/

namespace UFEDKMLstacker

/-- Canonical point-in-time value modelling Python `datetime.datetime`:
calendar fields plus an optional UTC offset in minutes (`none` models a
naive datetime, `some off` a timezone-aware one). -/
structure PyDatetime where
  year : Nat
  month : Nat
  day : Nat
  hour : Nat
  minute : Nat
  second : Nat
  micro : Nat
  tzOffsetMinutes : Option Int
deriving DecidableEq, Repr

/-- ASCII decimal digit test, modelling the `\d` character class of the
source's regex patterns and the digit checks of the numeric parsers. -/
def isDig (c : Char) : Bool := '0' ≤ c && c ≤ '9'

/-- Numeric value of an ASCII digit. -/
def digVal (c : Char) : Nat := c.toNat - '0'.toNat

/-- Consume exactly `n` ASCII digits from the front of the character
list, returning their numeric value and the rest. -/
def eatDigits : Nat → List Char → Option (Nat × List Char)
  | 0, l => some (0, l)
  | _+1, [] => none
  | n+1, c :: l =>
    if isDig c then
      match eatDigits n l with
      | some (v, r) => some (digVal c * 10 ^ n + v, r)
      | none => none
    else none

/-- Consume one expected literal character. -/
def eatChar (c : Char) : List Char → Option (List Char)
  | [] => none
  | x :: l => if x = c then some l else none

/-- Consume a run of ASCII digits whose length must lie in `[lo, hi]`
(the run is maximal, which agrees with the greedy `\d{lo,hi}` of the
source's regexes because every following regex atom is a non-digit). -/
def eatDigitsRun (lo hi : Nat) (l : List Char) : Option (List Char) :=
  let ds := l.takeWhile isDig
  if lo ≤ ds.length && ds.length ≤ hi then some (l.drop ds.length) else none

/-- Gregorian leap-year rule used by Python's `datetime` validation. -/
def isLeapYear (y : Nat) : Bool := (y % 4 == 0 && y % 100 != 0) || (y % 400 == 0)

/-- Number of days in a month, as validated by Python's `datetime`. -/
def daysInMonth (y m : Nat) : Nat :=
  if m == 2 then (if isLeapYear y then 29 else 28)
  else if m == 4 || m == 6 || m == 9 || m == 11 then 30 else 31

/-- Date-field validation performed by Python's `datetime` constructor
(year 1-9999, month 1-12, day within the month). -/
def validDate (y m d : Nat) : Bool :=
  1 ≤ y && y ≤ 9999 && 1 ≤ m && m ≤ 12 && 1 ≤ d && d ≤ daysInMonth y m

/-- Time-field validation performed by Python's `datetime` constructor. -/
def validTime (h mi s : Nat) : Bool := h ≤ 23 && mi ≤ 59 && s ≤ 59

/-- Value of a digit list read as a decimal number. -/
def digitsVal (ds : List Char) : Nat := ds.foldl (fun a c => a * 10 + digVal c) 0

/-- Consume an optional fractional-second part `.d{1,6}` and scale it to
microseconds; no leading dot means a zero fraction. -/
def parseFrac : List Char → Option (Nat × List Char)
  | [] => some (0, [])
  | c :: l =>
    if c = '.' then
      let ds := l.takeWhile isDig
      if 1 ≤ ds.length && ds.length ≤ 6 then
        some (digitsVal ds * 10 ^ (6 - ds.length), l.drop ds.length)
      else none
    else some (0, c :: l)

/-- Consume a `HH:MM` offset body and return it in minutes, requiring
the input to end there. -/
def eatOffHM (l : List Char) : Option Nat :=
  match eatDigits 2 l with
  | none => none
  | some (h, r1) =>
    match eatChar ':' r1 with
    | none => none
    | some r2 =>
      match eatDigits 2 r2 with
      | none => none
      | some (m, []) => if h ≤ 23 && m ≤ 59 then some (h * 60 + m) else none
      | some (_, _ :: _) => none

/-- Trailing timezone-offset parse of the `fromisoformat` model: an
empty rest means a naive result, `±HH:MM` an aware one, anything else a
parse failure. -/
def parseOffset : List Char → Option (Option Int)
  | [] => some none
  | c :: l =>
    if c = '+' then (eatOffHM l).map (fun v => some (Int.ofNat v))
    else if c = '-' then (eatOffHM l).map (fun v => some (-(Int.ofNat v : Int)))
    else none

/-- Trailing timezone part of the `arrow` model: a missing offset is
interpreted as UTC (arrow attaches UTC to naive input by default), `Z`
is UTC, `±HH:MM` is an explicit offset. -/
def arrowTz : List Char → Option (Option Int)
  | [] => some (some 0)
  | c :: l =>
    if c = 'Z' then (if l = [] then some (some 0) else none)
    else if c = '+' then (eatOffHM l).map (fun v => some (Int.ofNat v))
    else if c = '-' then (eatOffHM l).map (fun v => some (-(Int.ofNat v : Int)))
    else none

/-- Consume a `YYYY-MM-DD` date (the `\d{4}-\d{2}-\d{2}` shape shared
by both datetime models and by regex patterns 1, 2 and 4). -/
def eatDate (l : List Char) : Option (Nat × Nat × Nat × List Char) :=
  match eatDigits 4 l with
  | none => none
  | some (y, r1) =>
    match eatChar '-' r1 with
    | none => none
    | some r2 =>
      match eatDigits 2 r2 with
      | none => none
      | some (mo, r3) =>
        match eatChar '-' r3 with
        | none => none
        | some r4 =>
          match eatDigits 2 r4 with
          | none => none
          | some (d, r5) => some (y, mo, d, r5)

/-- Consume a `HH:MM:SS` triple (the `\d{2}:\d{2}:\d{2}` shape). -/
def eatHMS (t : List Char) : Option (Nat × Nat × Nat × List Char) :=
  match eatDigits 2 t with
  | none => none
  | some (h, u1) =>
    match eatChar ':' u1 with
    | none => none
    | some u2 =>
      match eatDigits 2 u2 with
      | none => none
      | some (mi, u3) =>
        match eatChar ':' u3 with
        | none => none
        | some u4 =>
          match eatDigits 2 u4 with
          | none => none
          | some (sec, u5) => some (h, mi, sec, u5)

/-- Consume `HH:MM:SS` with an optional fractional-second part. -/
def eatTime (t : List Char) : Option (Nat × Nat × Nat × Nat × List Char) :=
  match eatHMS t with
  | none => none
  | some (h, mi, sec, u5) =>
    match parseFrac u5 with
    | none => none
    | some (mic, u6) => some (h, mi, sec, mic, u6)

/-- Model of Python `datetime.datetime.fromisoformat` on the shapes
relevant to `parse_timestamp`: `YYYY-MM-DD` optionally followed by a
one-character separator and `HH:MM:SS[.ffffff][±HH:MM]`.  Invalid
syntax or out-of-range fields raise `ValueError` in the source (caught
by the caller); the model returns `none` there. -/
def fromisoformat (s : String) : Option PyDatetime :=
  match eatDate s.data with
  | none => none
  | some (y, mo, d, r5) =>
    if validDate y mo d then
      match r5 with
      | [] => some ⟨y, mo, d, 0, 0, 0, 0, none⟩
      | _ :: t =>
        match eatTime t with
        | none => none
        | some (h, mi, sec, mic, u6) =>
          match parseOffset u6 with
          | none => none
          | some tz =>
            if validTime h mi sec then some ⟨y, mo, d, h, mi, sec, mic, tz⟩
            else none
    else none

/-- Model of `arrow.get(timestamp_str).datetime` (line 360): a strict
ISO-8601 parse of `YYYY-MM-DD`, optionally followed by a `T` or space
separator and `HH:MM:SS[.ffffff]` with an optional `Z` or `±HH:MM`
offset.  Arrow treats naive input as UTC, so every success is
timezone-aware.  Any other text raises `ParserError`/`ValueError` in
the source (caught at line 363); the model returns `none` there. -/
def arrowGet (s : String) : Option PyDatetime :=
  match eatDate s.data with
  | none => none
  | some (y, mo, d, r5) =>
    if validDate y mo d then
      match r5 with
      | [] => some ⟨y, mo, d, 0, 0, 0, 0, some 0⟩
      | sep :: t =>
        if sep = 'T' || sep = ' ' then
          match eatTime t with
          | none => none
          | some (h, mi, sec, mic, u6) =>
            match arrowTz u6 with
            | none => none
            | some tz =>
              if validTime h mi sec then some ⟨y, mo, d, h, mi, sec, mic, tz⟩
              else none
        else none
    else none

/-- Model of the `$` anchor of a Python `re.match` pattern: it accepts
the end of the string or a single trailing newline. -/
def reEnd : List Char → Bool
  | [] => true
  | ['\n'] => true
  | _ => false

/-- Matcher for the shared regex tail `\+\d{2}:\d{2}$`. -/
def matchOffEnd (r : List Char) : Bool :=
  match eatChar '+' r with
  | none => false
  | some r1 =>
    match eatDigits 2 r1 with
    | none => false
    | some (_, r2) =>
      match eatChar ':' r2 with
      | none => false
      | some r3 =>
        match eatDigits 2 r3 with
        | none => false
        | some (_, r4) => reEnd r4

/-- Matcher for the source regex
`^\d{4}-\d{2}-\d{2} \d{2}:\d{2}:\d{2}\.\d{6}\+\d{2}:\d{2}$` (line 367). -/
def matchP1 (l : List Char) : Bool :=
  match eatDate l with
  | none => false
  | some (_, _, _, r5) =>
    match eatChar ' ' r5 with
    | none => false
    | some t =>
      match eatHMS t with
      | none => false
      | some (_, _, _, u5) =>
        match eatChar '.' u5 with
        | none => false
        | some u6 =>
          match eatDigitsRun 6 6 u6 with
          | none => false
          | some u7 => matchOffEnd u7

/-- Matcher for the source regex
`^\d{4}-\d{2}-\d{2} \d{2}:\d{2}:\d{2}\+\d{2}:\d{2}$` (line 368). -/
def matchP2 (l : List Char) : Bool :=
  match eatDate l with
  | none => false
  | some (_, _, _, r5) =>
    match eatChar ' ' r5 with
    | none => false
    | some t =>
      match eatHMS t with
      | none => false
      | some (_, _, _, u5) => matchOffEnd u5

/-- Matcher for the source regex
`^\d{2}\.\d{2}\.\d{4} \d{2}:\d{2}:\d{2}\(UTC\+\d{1,2}\)$` (line 369),
the localized `DD.MM.YYYY HH:MM:SS(UTC+N)` form. -/
def matchP3 (l : List Char) : Bool :=
  match eatDigits 2 l with
  | none => false
  | some (_, r1) =>
    match eatChar '.' r1 with
    | none => false
    | some r2 =>
      match eatDigits 2 r2 with
      | none => false
      | some (_, r3) =>
        match eatChar '.' r3 with
        | none => false
        | some r4 =>
          match eatDigits 4 r4 with
          | none => false
          | some (_, r5) =>
            match eatChar ' ' r5 with
            | none => false
            | some t =>
              match eatHMS t with
              | none => false
              | some (_, _, _, u5) =>
                match eatChar '(' u5 with
                | none => false
                | some v1 =>
                  match eatChar 'U' v1 with
                  | none => false
                  | some v2 =>
                    match eatChar 'T' v2 with
                    | none => false
                    | some v3 =>
                      match eatChar 'C' v3 with
                      | none => false
                      | some v4 =>
                        match eatChar '+' v4 with
                        | none => false
                        | some v5 =>
                          match eatDigitsRun 1 2 v5 with
                          | none => false
                          | some v6 =>
                            match eatChar ')' v6 with
                            | none => false
                            | some v7 => reEnd v7

/-- Matcher for the source regex
`^\d{4}-\d{2}-\d{2} \d{2}:\d{2}:\d{2}\.\d{3,6}\+\d{2}:\d{2}$` (line 370). -/
def matchP4 (l : List Char) : Bool :=
  match eatDate l with
  | none => false
  | some (_, _, _, r5) =>
    match eatChar ' ' r5 with
    | none => false
    | some t =>
      match eatHMS t with
      | none => false
      | some (_, _, _, u5) =>
        match eatChar '.' u5 with
        | none => false
        | some u6 =>
          match eatDigitsRun 3 6 u6 with
          | none => false
          | some u7 => matchOffEnd u7

/-- The four fallback regex patterns of `parse_timestamp`
(lines 366-371), in source order, compiled to character matchers. -/
def regex_patterns : List (List Char → Bool) := [matchP1, matchP2, matchP3, matchP4]

/-- Model of `parse_timestamp` (lines 345-384).  A `None` or empty
string returns `None` at once; then `arrow.get` is tried; on failure
each regex pattern in order qualifies the string for a
`datetime.fromisoformat` re-parse, whose own failure is caught and the
loop continues; with nothing left the function returns `None`. -/
def parse_timestamp (timestamp_str : Option String) : Option PyDatetime :=
  match timestamp_str with
  | none => none
  | some s =>
    if s = "" then none
    else
      match arrowGet s with
      | some dt => some dt
      | none =>
        regex_patterns.findSome? (fun pat =>
          if pat s.data then fromisoformat s else none)

/-- Left-pad a decimal rendering with zeros to width `w`. -/
def pad (w n : Nat) : String :=
  let s := toString n
  String.mk (List.replicate (w - s.length) '0') ++ s

/-- Model of Python `datetime.isoformat()`: microseconds are printed
only when non-zero, the offset only for aware values. -/
def isoformat (dt : PyDatetime) : String :=
  pad 4 dt.year ++ "-" ++ pad 2 dt.month ++ "-" ++ pad 2 dt.day ++ "T" ++
  pad 2 dt.hour ++ ":" ++ pad 2 dt.minute ++ ":" ++ pad 2 dt.second ++
  (if dt.micro = 0 then "" else "." ++ pad 6 dt.micro) ++
  (match dt.tzOffsetMinutes with
   | none => ""
   | some off =>
     (if off < 0 then "-" else "+") ++
       pad 2 (off.natAbs / 60) ++ ":" ++ pad 2 (off.natAbs % 60))

/-- Scan for the non-greedy close of a `<...>` regex match: the next
`>` before any newline; a newline first means `<.*?>` has no match
starting here, because `.` does not match a newline. -/
def findTagClose : List Char → Option (List Char)
  | [] => none
  | c :: r => if c = '>' then some r else if c = '\n' then none else findTagClose r

theorem findTagClose_length : ∀ (l r : List Char), findTagClose l = some r → r.length < l.length := by
  intro l
  induction l with
  | nil => intro r h; simp [findTagClose] at h
  | cons c cs ih =>
    intro r h
    simp only [findTagClose] at h
    split at h
    · cases h; simp
    · split at h
      · cases h
      · exact Nat.lt_succ_of_lt (ih r h)

/-- Character-level worker for `clean_html_tags`: repeatedly delete the
leftmost non-greedy `<...>` match, keeping an unmatched `<` literally.
The fuel argument (instantiated with the list length, which strictly
bounds the recursion depth) keeps the recursion structural so that the
kernel can evaluate the function. -/
def cleanCharsF : Nat → List Char → List Char
  | 0, l => l
  | _+1, [] => []
  | fuel+1, c :: cs =>
    if c = '<' then
      match findTagClose cs with
      | some rest => cleanCharsF fuel rest
      | none => c :: cleanCharsF fuel cs
    else c :: cleanCharsF fuel cs

/-- Worker of `clean_html_tags` with the fuel fixed to a sufficient value. -/
def cleanChars (l : List Char) : List Char := cleanCharsF l.length l

/-- Model of `clean_html_tags` (lines 89-102): `re.sub(r'<.*?>', '', text)`.
The caller always supplies the `findtext` result with default `''`, so
the `None` branch of the source is never taken and the model takes a
plain string. -/
def clean_html_tags (text : String) : String := String.mk (cleanChars text.data)

/-- Python `str` whitespace as used by `.strip()` and `float()`. -/
def isPySpace (c : Char) : Bool :=
  c = ' ' || c = '\t' || c = '\n' || c = '\r' || c = '\x0b' || c = '\x0c'

/-- Model of Python `str.strip()`. -/
def pyStrip (s : String) : String :=
  String.mk (((s.data.dropWhile isPySpace).reverse.dropWhile isPySpace).reverse)

/-- Character-level split on a one-character separator, with the
semantics of Python `str.split(sep)` for a non-empty separator: an
empty string yields one empty group, each separator occurrence starts
a new group. -/
def pySplitChars (sepc : Char) : List Char → List (List Char)
  | [] => [[]]
  | c :: r =>
    match pySplitChars sepc r with
    | [] => [[]]
    | g :: gs => if c = sepc then [] :: g :: gs else (c :: g) :: gs

/-- Model of Python `str.split(sep)` for a one-character separator. -/
def pySplit (s : String) (sepc : Char) : List String :=
  (pySplitChars sepc s.data).map String.mk

/-- Model of the Python `in` operator on strings (substring test). -/
def pyInStr (needle hay : String) : Bool :=
  hay.data.tails.any (fun t => needle.data.isPrefixOf t)

/-- Exact decimal value `mant * 10 ^ exp10`, the representation used
for parsed coordinates.  Python stores a binary float; its rounding is
not modelled, and no claim inspects coordinate values beyond parse
success, so an exact unnormalized decimal stands in for it. -/
structure PyFloatVal where
  mant : Int
  exp10 : Int
deriving DecidableEq, Repr

/-- Unsigned decimal mantissa of a Python `float()` literal: digits
with an optional fractional part (at least one digit overall); returns
the mantissa digits' value, the number of fractional digits, and the
rest of the input. -/
def pyFloatMantissa (l : List Char) : Option (Nat × Nat × List Char) :=
  let ip := l.takeWhile isDig
  let r1 := l.drop ip.length
  match r1 with
  | '.' :: r2 =>
    let fp := r2.takeWhile isDig
    if ip.length = 0 && fp.length = 0 then none
    else some (digitsVal ip * 10 ^ fp.length + digitsVal fp, fp.length, r2.drop fp.length)
  | _ => if ip.length = 0 then none else some (digitsVal ip, 0, r1)

/-- Optional exponent part `e[±]digits` of a Python `float()` literal;
the input must end afterwards. -/
def pyFloatExp : List Char → Option Int
  | [] => some 0
  | e :: r =>
    if e = 'e' || e = 'E' then
      let (sgn, r1) : Int × List Char :=
        match r with
        | '+' :: r1 => (1, r1)
        | '-' :: r1 => (-1, r1)
        | _ => (1, r)
      let ds := r1.takeWhile isDig
      if ds.length ≥ 1 && r1.drop ds.length = [] then some (sgn * Int.ofNat (digitsVal ds))
      else none
    else none

/-- Model of Python `float(str)` on finite decimal literals: optional
surrounding whitespace, optional sign, decimal mantissa, optional
exponent.  (`inf`/`nan` spellings are not modelled; no claim depends on
them.)  A `ValueError` of the source is `none` here. -/
def pyFloat (s : String) : Option PyFloatVal :=
  let t := ((s.data.dropWhile isPySpace).reverse.dropWhile isPySpace).reverse
  let (sgn, body) : Int × List Char :=
    match t with
    | '+' :: r => (1, r)
    | '-' :: r => (-1, r)
    | _ => (1, t)
  match pyFloatMantissa body with
  | none => none
  | some (m, scale, rest) =>
    match pyFloatExp rest with
    | none => none
    | some e => some ⟨sgn * Int.ofNat m, e - Int.ofNat scale⟩

/-- Input placemark as surfaced by the streaming parse of
`process_kml_file`: `name` and `description` are the `findtext` results
with default `''`; in `timeStampWhen` the outer `none` means the
placemark has no `TimeStamp` element and the inner option is the
`when` text (`none` when there is no `when` child); in `coordinates`
the outer `none` means no `coordinates` element and the inner option is
its text (`none` models a `None` text, which raises on `.strip()`). -/
structure InPlacemark where
  name : String
  description : String
  timeStampWhen : Option (Option String)
  coordinates : Option (Option String)
deriving DecidableEq, Repr

/-- Retained geopoint record built at lines 493-496 of the source. -/
structure GeoPoint where
  lon : PyFloatVal
  lat : PyFloatVal
  timestamp : Option PyDatetime
  name : String
  description : String
deriving DecidableEq, Repr

/-- Timestamp recovery of `process_kml_file` (lines 467-483), returning
the recovered value and the `timestamp_source` marker the source logs:
(a) a non-empty `TimeStamp/when` text is parsed and the marker set even
when parsing fails; (b) when the timestamp is still falsy, a name
containing `UTC` routes to a parse of the whole display name — an
`elif` keeps the description from being tried in that case; (c) only
otherwise is a description containing `UTC` parsed. -/
def recover_timestamp (name descText : String) (timeStampWhen : Option (Option String)) :
    Option PyDatetime × Option String :=
  let stepA : Option PyDatetime × Option String :=
    match timeStampWhen with
    | some (some w) =>
      if w ≠ "" then (parse_timestamp (some w), some "<TimeStamp>") else (none, none)
    | some none => (none, none)
    | none => (none, none)
  match stepA with
  | (some t, src) => (some t, src)
  | (none, src) =>
    if pyInStr "UTC" name then (parse_timestamp (some name), some "<name>")
    else if pyInStr "UTC" descText then (parse_timestamp (some descText), some "<description>")
    else (none, src)

/-- Accumulator of the placemark loop of `process_kml_file`.
`coordsVar` models the loop-local Python variable `coords`: it is
unbound (`none`) until the first placemark with a `coordinates` element
assigns it at line 490, and the logging f-strings at lines 502/504 read
it unconditionally. -/
structure PKState where
  total_points : Nat
  points_with_timestamps : Nat
  valid_points : List GeoPoint
  coordsVar : Option (List String)
deriving DecidableEq, Repr

/-- One iteration of the placemark loop of `process_kml_file`
(lines 460-504).  `Except.error` models an exception escaping the loop
body, caught by the handlers at lines 506-511 with the counters as
accumulated: a `coordinates` element whose text is `None`
(`AttributeError` on `.strip()`, line 490), a non-numeric coordinate
component (`ValueError` from `float`, line 492), or the logging
f-string at lines 502/504 reading `coords` while it is still unbound
(`NameError`, reached whenever the placemark has no `coordinates`
element and no earlier placemark bound it). -/
def processPlacemark (remark : String) (st : PKState) (pm : InPlacemark) :
    Except PKState PKState :=
  let name := "(" ++ remark ++ ") - " ++ pm.name
  let descText := clean_html_tags pm.description
  let ts := (recover_timestamp name descText pm.timeStampWhen).1
  let st :=
    if ts.isSome then
      { st with points_with_timestamps := st.points_with_timestamps + 1 }
    else st
  match pm.coordinates with
  | none =>
    if st.coordsVar.isNone then .error st else .ok st
  | some none => .error st
  | some (some txt) =>
    let coords := pySplit (pyStrip txt) ','
    let st := { st with coordsVar := some coords }
    if coords.length ≥ 2 then
      match pyFloat (coords.getD 0 ""), pyFloat (coords.getD 1 "") with
      | some lon, some lat =>
        .ok { st with
              valid_points := st.valid_points ++ [⟨lon, lat, ts, name, descText⟩],
              total_points := st.total_points + 1 }
      | _, _ => .error st
    else .ok st

/-- Model of `process_kml_file` (lines 444-514) on the stream of
placemark elements delivered by `iterparse`.  A file-level XML or OS
error (lines 506-511) truncates the stream, which is subsumed by
quantifying over the placemark list; an in-loop exception ends
processing and the function returns whatever counters were accumulated
by then (line 514). -/
def process_kml_file (pms : List InPlacemark) (remark : String) :
    Nat × Nat × List GeoPoint :=
  let final := pms.foldl
    (fun acc pm =>
      match acc with
      | .error s => .error s
      | .ok s => processPlacemark remark s pm)
    (Except.ok ⟨0, 0, [], none⟩)
  match final with
  | .ok s => (s.total_points, s.points_with_timestamps, s.valid_points)
  | .error s => (s.total_points, s.points_with_timestamps, s.valid_points)

/-- Path components of a POSIX path string (split on the separator). -/
def pathComponents (s : String) : List String := pySplit s '/'

/-- Absolute-path test, as `os.path.isabs`. -/
def isAbsPath (s : String) : Bool :=
  match s.data with
  | '/' :: _ => true
  | _ => false

/-- Lexical normalization of absolute-path components, as performed by
`os.path.normpath` inside `os.path.abspath`: empty and `.` components
vanish and `..` pops the previous component (never above the root).
The result is the component list below the root. -/
def normComponents (l : List String) : List String :=
  l.foldl
    (fun acc c =>
      if c = "" || c = "." then acc
      else if c = ".." then acc.dropLast
      else acc ++ [c])
    []

/-- Model of `os.path.abspath`: a relative path is joined to the
current working directory, then normalized lexically; symbolic links
are not resolved. -/
def abspath (cwd p : String) : List String :=
  if isAbsPath p then normComponents (pathComponents p)
  else normComponents (pathComponents cwd ++ pathComponents p)

/-- Test that `os.path.commonpath([base, p]) == base` for two
normalized absolute component lists: `base` must be a component-wise
leading part of `p`. -/
def commonPathEqBase (base p : List String) : Bool := base.isPrefixOf p

/-- Filesystem symlink table: normalized absolute component paths
mapped to their absolute targets. -/
structure PathFS where
  links : List (List String × List String)
deriving DecidableEq, Repr

/-- Model of `os.path.islink`. -/
def islink (fs : PathFS) (p : List String) : Bool := fs.links.any (fun e => e.1 == p)

/-- Model of `validate_file_path` (lines 104-128): `base_dir` and
`full_path` are `os.path.abspath` results (lexical normalization
against the current working directory, no symbolic-link resolution);
the path is rejected when it is itself a symbolic link or when
`os.path.commonpath([base_dir, full_path])` differs from `base_dir`. -/
def validate_file_path (fs : PathFS) (cwd base_path file_path : String) : Bool :=
  let base_dir := abspath cwd base_path
  let full_path := abspath cwd file_path
  if islink fs full_path then false
  else commonPathEqBase base_dir full_path

/-- Component-wise symbolic-link resolution (the semantics of
`os.path.realpath`), used to state what "resolves, after symbolic-link
and traversal resolution" means; `fuel` bounds link-chain length. -/
def resolveParts (fs : PathFS) : Nat → List String → List String → List String
  | 0, acc, rest => acc ++ rest
  | _+1, acc, [] => acc
  | fuel+1, acc, c :: rest =>
    match fs.links.find? (fun e => e.1 == acc ++ [c]) with
    | some e => resolveParts fs fuel (resolveParts fs fuel [] e.2) rest
    | none => resolveParts fs fuel (acc ++ [c]) rest

/-- Fully resolved location of a normalized absolute component path. -/
def resolvePath (fs : PathFS) (p : List String) : List String :=
  resolveParts fs (fs.links.length + p.length + 1) [] p

/-- Model of `os.path.join(base, f)` for the paths the source builds. -/
def pyJoin (base f : String) : String :=
  if isAbsPath f then f else base ++ "/" ++ f

/-- Metadata snapshot of `extract_file_metadata` (lines 386-407); its
contents are opaque to the merge logic and supplied by the context. -/
structure FileMeta where
  creation_time : String
  modification_time : String
  file_size : Nat
  sha256 : String
deriving DecidableEq, Repr

/-- Statistics row appended at lines 545-554 of the source. -/
structure StatRow where
  file : String
  total_points : Nat
  points_with_timestamps : Nat
  valid_points : Nat
  mapped_points : Nat
  remark : String
  color : String
  meta : FileMeta
deriving DecidableEq, Repr

/-- Style block of the merged document (`define_styles`, lines 328-343). -/
structure Style where
  id : String
  color : String
  href : String
deriving DecidableEq, Repr

/-- Placemark element written into the merged document (lines 556-571).
The source always creates a `TimeStamp` element with a `when` child;
`timeStampWhen` is the optional text of that `when` child (`none`
models the `when` element left empty, with no text assigned). -/
structure OutPlacemark where
  styleUrl : String
  coordinates : String
  description : String
  timeStampWhen : Option String
  name : String
deriving DecidableEq, Repr

/-- Character-level model of `color.replace("#", "ff")` at line 340. -/
def replaceHash : List Char → List Char
  | [] => []
  | c :: r => if c = '#' then 'f' :: 'f' :: replaceHash r else c :: replaceHash r

/-- Model of `define_styles` (lines 328-343): one style per `color_map`
entry, with id the file name and color the hex value whose `#` is
replaced by the full-opacity marker `ff`. -/
def define_styles (color_map : List (String × String)) : List Style :=
  color_map.map (fun e =>
    ⟨e.1, String.mk (replaceHash e.2.data),
     "http://maps.google.com/mapfiles/kml/pushpin/red-pushpin.png"⟩)

/-- Model of a Python `dict[key]` lookup on an insertion-ordered
association list; `none` models a `KeyError`. -/
def dictGet {α : Type} (m : List (String × α)) (k : String) : Option α :=
  (m.find? (fun e => e.1 == k)).map Prod.snd

/-- Rendering of the coordinate pair at line 562.  Python's float
`repr` is not modelled digit-for-digit; the exact decimal value is
printed in mantissa-exponent form.  No claim depends on this
rendering. -/
def floatText (v : PyFloatVal) : String := toString v.mant ++ "e" ++ toString v.exp10

/-- Text of the `coordinates` element written at line 562. -/
def floatPairText (lon lat : PyFloatVal) : String := floatText lon ++ "," ++ floatText lat

/-- Construction of one output placemark (lines 556-570): style
reference `#file`, coordinate text, cleaned description, a `TimeStamp`
element whose `when` child receives the `isoformat` text only when the
point's timestamp is truthy (line 567), and the prefixed name. -/
def make_placemark (file : String) (point : GeoPoint) : OutPlacemark :=
  { styleUrl := "#" ++ file
  , coordinates := floatPairText point.lon point.lat
  , description := point.description
  , timeStampWhen :=
      match point.timestamp with
      | some t => some (isoformat t)
      | none => none
  , name := point.name }

/-- Ambient context of `merge_kml_files`: the filesystem state for path
validation, the working and base directories, the placemark streams the
source files parse to (keyed by the path the source opens, which is
`os.path.join(base_path, file)`), and the metadata snapshots. -/
structure MergeCtx where
  fs : PathFS
  cwd : String
  base_path : String
  fileContents : String → List InPlacemark
  meta : String → FileMeta

/-- Accumulated output of `merge_kml_files`: the document's styles and
placemarks, the statistics list the caller's list receives, and the
running `total_valid_points`. -/
structure MergeAcc where
  styles : List Style
  placemarks : List OutPlacemark
  statistics : List StatRow
  total_valid_points : Nat
deriving DecidableEq, Repr

/-- Per-file body of the loop of `merge_kml_files` (lines 538-571).
`none` models an uncaught `KeyError` from `remarks[file]` (line 539,
reached before validation) or `color_map[file]` (line 542) escaping the
function. -/
def mergeStep (ctx : MergeCtx) (color_map remarks : List (String × String))
    (acc : MergeAcc) (file : String) : Option MergeAcc :=
  match dictGet remarks file with
  | none => none
  | some remark =>
    let r := process_kml_file (ctx.fileContents (pyJoin ctx.base_path file)) remark
    if validate_file_path ctx.fs ctx.cwd ctx.base_path file then
      match dictGet color_map file with
      | none => none
      | some color =>
        some
          { styles := acc.styles
          , placemarks := acc.placemarks ++ r.2.2.map (make_placemark file)
          , statistics := acc.statistics ++
              [{ file := file
               , total_points := r.1
               , points_with_timestamps := r.2.1
               , valid_points := r.2.2.length
               , mapped_points := r.2.2.length
               , remark := remark
               , color := color
               , meta := ctx.meta file }]
          , total_valid_points := acc.total_valid_points + r.2.2.length }
    else some acc

/-- Sequential fold of the per-file loop. -/
def mergeGo (ctx : MergeCtx) (color_map remarks : List (String × String)) :
    List String → MergeAcc → Option MergeAcc
  | [], acc => some acc
  | file :: rest, acc =>
    match mergeStep ctx color_map remarks acc file with
    | none => none
    | some acc2 => mergeGo ctx color_map remarks rest acc2

/-- Model of `merge_kml_files` (lines 516-583): styles are defined
first from `color_map` (line 532), then each file is processed,
validated and folded into the document and statistics. -/
def merge_kml_files (ctx : MergeCtx) (files : List String)
    (color_map remarks : List (String × String)) : Option MergeAcc :=
  mergeGo ctx color_map remarks files
    { styles := define_styles color_map
    , placemarks := []
    , statistics := []
    , total_valid_points := 0 }

/-- Run-level total computed at line 578 of the source (and again at
line 703): the sum of the `valid_points` column of the statistics. -/
def total_mapped_points (statistics : List StatRow) : Nat :=
  (statistics.map (fun st => st.valid_points)).sum

/-- The fixed ordered palette `COLORS` of `assign_colors_to_files`
(lines 287-291), in Python dict-literal insertion order. -/
def COLORS : List (String × String) :=
  [("red", "#FF0000"), ("blue", "#0000FF"), ("yellow", "#FFFF00"),
   ("green", "#00FF00"), ("orange", "#FFA500"), ("violet", "#EE82EE"),
   ("pink", "#FFC0CB"), ("purple", "#800080"), ("turquoise", "#40E0D0"),
   ("cyan", "#00FFFF")]

/-- Insertion into a Python dict modelled as an insertion-ordered
association list: an existing key keeps its position and takes the new
value. -/
def dictInsert {α : Type} (m : List (String × α)) (k : String) (v : α) : List (String × α) :=
  if m.any (fun e => e.1 == k) then m.map (fun e => if e.1 == k then (k, v) else e)
  else m ++ [(k, v)]

/-- Model of `assign_colors_to_files` (lines 277-302), namely the dict
comprehension over `i in range(len(files))` pairing `files[i]` with
`list(COLORS.values())[i]`.  `none` models the `IndexError` raised when
`i` reaches the palette length, before any mapping is produced.  (The
side-effecting write of `color_mapping.txt` is external output and not
modelled.) -/
def assignStep (files : List String) (acc : Option (List (String × String))) (i : Nat) :
    Option (List (String × String)) :=
  match acc with
  | none => none
  | some m =>
    match (COLORS.map Prod.snd)[i]? with
    | none => none
    | some c => some (dictInsert m (files.getD i "") c)

/-- The fold of `assignStep` over the index range of the comprehension. -/
def assign_colors_to_files (files : List String) : Option (List (String × String)) :=
  (List.range files.length).foldl (assignStep files) (some [])


/-! Shape lemmas for the character-level parsers. -/

theorem eatChar_shape {c : Char} {l r : List Char} (h : eatChar c l = some r) : l = c :: r := by
  cases l with
  | nil => simp [eatChar] at h
  | cons x xs =>
    simp only [eatChar] at h
    split at h
    · next hx => cases h; rw [hx]
    · cases h

theorem eatDigits_shape :
    ∀ (n : Nat) (l : List Char) (v : Nat) (r : List Char), eatDigits n l = some (v, r) →
      ∃ ds, l = ds ++ r ∧ ds.length = n ∧ ds.all isDig = true := by
  intro n
  induction n with
  | zero =>
    intro l v r h
    simp only [eatDigits, Option.some.injEq, Prod.mk.injEq] at h
    exact ⟨[], by simp [h.2], rfl, rfl⟩
  | succ n ih =>
    intro l v r h
    cases l with
    | nil => simp [eatDigits] at h
    | cons c cs =>
      simp only [eatDigits] at h
      split at h
      · next hc =>
        cases hed : eatDigits n cs with
        | none => rw [hed] at h; dsimp only at h; cases h
        | some p =>
          obtain ⟨w, r2⟩ := p
          rw [hed] at h
          dsimp only at h
          injection h with h1
          injection h1 with hv hr
          subst hr
          obtain ⟨ds, hds, hlen, hall⟩ := ih cs w r2 hed
          exact ⟨c :: ds, by simp [hds], by simp [hlen], by simp [List.all_cons, hc, hall]⟩
      · cases h

theorem eatDigits4_dot (c1 c2 : Char) (r : List Char) :
    eatDigits 4 (c1 :: c2 :: '.' :: r) = none := by
  by_cases h1 : isDig c1 <;> by_cases h2 : isDig c2 <;>
    simp [eatDigits, h1, h2, isDig]

theorem matchP3_start {l : List Char} (h : matchP3 l = true) :
    ∃ c1 c2 r, l = c1 :: c2 :: '.' :: r := by
  simp only [matchP3] at h
  cases h2 : eatDigits 2 l with
  | none => rw [h2] at h; dsimp only at h; cases h
  | some p =>
    obtain ⟨v1, r1⟩ := p
    rw [h2] at h
    dsimp only at h
    cases hc : eatChar '.' r1 with
    | none => rw [hc] at h; dsimp only at h; cases h
    | some r2 =>
      obtain ⟨ds, hds, hlen, _⟩ := eatDigits_shape 2 l v1 r1 h2
      obtain ⟨a, b, hab⟩ := List.length_eq_two.mp hlen
      refine ⟨a, b, r2, ?_⟩
      rw [hds, hab, eatChar_shape hc]
      rfl

/-! Awareness of every parse result: `arrow.get` attaches UTC to naive
input, and a fallback re-parse can only succeed on pattern-matched
strings, which all carry an explicit offset. -/

theorem arrowTz_aware {l : List Char} {o : Option Int} (h : arrowTz l = some o) : o.isSome := by
  cases l with
  | nil =>
    simp only [arrowTz, Option.some.injEq] at h
    rw [← h]; rfl
  | cons c cs =>
    simp only [arrowTz] at h
    split at h
    · split at h
      · cases h; rfl
      · cases h
    · split at h
      · cases he : eatOffHM cs with
        | none => rw [he] at h; simp at h
        | some v => rw [he] at h; simp only [Option.map_some'] at h; cases h; rfl
      · split at h
        · cases he : eatOffHM cs with
          | none => rw [he] at h; simp at h
          | some v => rw [he] at h; simp only [Option.map_some'] at h; cases h; rfl
        · cases h

theorem parseOffset_cons_aware {c : Char} {l : List Char} {o : Option Int}
    (h : parseOffset (c :: l) = some o) : o.isSome := by
  simp only [parseOffset] at h
  split at h
  · cases he : eatOffHM l with
    | none => rw [he] at h; simp at h
    | some v => rw [he] at h; simp only [Option.map_some'] at h; cases h; rfl
  · split at h
    · cases he : eatOffHM l with
      | none => rw [he] at h; simp at h
      | some v => rw [he] at h; simp only [Option.map_some'] at h; cases h; rfl
    · cases h

theorem arrowGet_aware {s : String} {dt : PyDatetime} (h : arrowGet s = some dt) :
    dt.tzOffsetMinutes.isSome := by
  simp only [arrowGet] at h
  cases hd : eatDate s.data with
  | none => rw [hd] at h; dsimp only at h; cases h
  | some q =>
    obtain ⟨y, mo, d, r5⟩ := q
    rw [hd] at h
    dsimp only at h
    split at h
    · cases r5 with
      | nil => dsimp only at h; cases h; rfl
      | cons sep t =>
        dsimp only at h
        split at h
        · cases ht : eatTime t with
          | none => rw [ht] at h; dsimp only at h; cases h
          | some p =>
            obtain ⟨hh, mi, sec, mic, u6⟩ := p
            rw [ht] at h
            dsimp only at h
            cases htz : arrowTz u6 with
            | none => rw [htz] at h; dsimp only at h; cases h
            | some tz =>
              rw [htz] at h
              dsimp only at h
              split at h
              · cases h; exact arrowTz_aware htz
              · cases h
        · cases h
    · cases h

theorem matchOffEnd_shape {u : List Char} (h : matchOffEnd u = true) :
    ∃ w, u = '+' :: w := by
  simp only [matchOffEnd] at h
  cases hc : eatChar '+' u with
  | none => rw [hc] at h; dsimp only at h; cases h
  | some r1 => exact ⟨r1, eatChar_shape hc⟩

/-- Common final stage of the awareness argument: once the
`fromisoformat` model reaches a fractional parse whose remainder starts
with `+`, any overall success carries an offset. -/
theorem fromiso_aware_tail {s : String} {dt : PyDatetime}
    {y mo d : Nat} {r5 : List Char}
    (hd : eatDate s.data = some (y, mo, d, r5))
    {t : List Char} (hr5 : r5 = ' ' :: t)
    {a b c : Nat} {u5 : List Char} (hh : eatHMS t = some (a, b, c, u5))
    {mic : Nat} {w : List Char} (hfr : parseFrac u5 = some (mic, '+' :: w))
    (hf : fromisoformat s = some dt) : dt.tzOffsetMinutes.isSome := by
  simp only [fromisoformat] at hf
  rw [hd] at hf
  dsimp only at hf
  split at hf
  · rw [hr5] at hf
    dsimp only at hf
    simp only [eatTime] at hf
    rw [hh] at hf
    dsimp only at hf
    rw [hfr] at hf
    dsimp only at hf
    cases ho : parseOffset ('+' :: w) with
    | none => rw [ho] at hf; dsimp only at hf; cases hf
    | some tz =>
      rw [ho] at hf
      dsimp only at hf
      split at hf
      · cases hf; exact parseOffset_cons_aware ho
      · cases hf
  · cases hf

theorem fromiso_aware_p2 {s : String} {dt : PyDatetime}
    (h : matchP2 s.data = true) (hf : fromisoformat s = some dt) :
    dt.tzOffsetMinutes.isSome := by
  simp only [matchP2] at h
  cases hd : eatDate s.data with
  | none => rw [hd] at h; dsimp only at h; cases h
  | some q =>
    obtain ⟨y, mo, d, r5⟩ := q
    rw [hd] at h
    dsimp only at h
    cases hsp : eatChar ' ' r5 with
    | none => rw [hsp] at h; dsimp only at h; cases h
    | some t =>
      rw [hsp] at h
      dsimp only at h
      cases hh : eatHMS t with
      | none => rw [hh] at h; dsimp only at h; cases h
      | some p =>
        obtain ⟨a, b, c, u5⟩ := p
        rw [hh] at h
        dsimp only at h
        obtain ⟨w, hw⟩ := matchOffEnd_shape h
        have hfr : parseFrac u5 = some (0, '+' :: w) := by
          rw [hw]; simp [parseFrac]
        exact fromiso_aware_tail hd (eatChar_shape hsp) hh hfr hf

theorem fromiso_aware_frac {s : String} {dt : PyDatetime} {lo hi : Nat}
    (hlo : 1 ≤ lo) (hhi : hi ≤ 6)
    {y mo d : Nat} {r5 : List Char} (hd : eatDate s.data = some (y, mo, d, r5))
    {t : List Char} (hsp : eatChar ' ' r5 = some t)
    {a b c : Nat} {u5 : List Char} (hh : eatHMS t = some (a, b, c, u5))
    {u6 u7 : List Char} (hdot : eatChar '.' u5 = some u6)
    (hrun : eatDigitsRun lo hi u6 = some u7)
    (hoff : matchOffEnd u7 = true)
    (hf : fromisoformat s = some dt) : dt.tzOffsetMinutes.isSome := by
  obtain ⟨w, hw⟩ := matchOffEnd_shape hoff
  simp only [eatDigitsRun] at hrun
  split at hrun
  · next hlen =>
    simp only [Bool.and_eq_true, decide_eq_true_eq] at hlen
    cases hrun
    have hfr : parseFrac u5 =
        some (digitsVal (u6.takeWhile isDig) * 10 ^ (6 - (u6.takeWhile isDig).length),
              u6.drop (u6.takeWhile isDig).length) := by
      rw [eatChar_shape hdot]
      have hb : (1 ≤ (u6.takeWhile isDig).length && (u6.takeWhile isDig).length ≤ 6) = true := by
        simp only [Bool.and_eq_true, decide_eq_true_eq]
        exact ⟨le_trans hlo hlen.1, le_trans hlen.2 hhi⟩
      simp [parseFrac, hb]
    rw [hw] at hfr
    exact fromiso_aware_tail hd (eatChar_shape hsp) hh hfr hf
  · cases hrun

theorem fromiso_aware_p1 {s : String} {dt : PyDatetime}
    (h : matchP1 s.data = true) (hf : fromisoformat s = some dt) :
    dt.tzOffsetMinutes.isSome := by
  simp only [matchP1] at h
  cases hd : eatDate s.data with
  | none => rw [hd] at h; dsimp only at h; cases h
  | some q =>
    obtain ⟨y, mo, d, r5⟩ := q
    rw [hd] at h
    dsimp only at h
    cases hsp : eatChar ' ' r5 with
    | none => rw [hsp] at h; dsimp only at h; cases h
    | some t =>
      rw [hsp] at h
      dsimp only at h
      cases hh : eatHMS t with
      | none => rw [hh] at h; dsimp only at h; cases h
      | some p =>
        obtain ⟨a, b, c, u5⟩ := p
        rw [hh] at h
        dsimp only at h
        cases hdot : eatChar '.' u5 with
        | none => rw [hdot] at h; dsimp only at h; cases h
        | some u6 =>
          rw [hdot] at h
          dsimp only at h
          cases hrun : eatDigitsRun 6 6 u6 with
          | none => rw [hrun] at h; dsimp only at h; cases h
          | some u7 =>
            rw [hrun] at h
            dsimp only at h
            exact fromiso_aware_frac (by norm_num) (by norm_num) hd hsp hh hdot hrun h hf

theorem fromiso_aware_p4 {s : String} {dt : PyDatetime}
    (h : matchP4 s.data = true) (hf : fromisoformat s = some dt) :
    dt.tzOffsetMinutes.isSome := by
  simp only [matchP4] at h
  cases hd : eatDate s.data with
  | none => rw [hd] at h; dsimp only at h; cases h
  | some q =>
    obtain ⟨y, mo, d, r5⟩ := q
    rw [hd] at h
    dsimp only at h
    cases hsp : eatChar ' ' r5 with
    | none => rw [hsp] at h; dsimp only at h; cases h
    | some t =>
      rw [hsp] at h
      dsimp only at h
      cases hh : eatHMS t with
      | none => rw [hh] at h; dsimp only at h; cases h
      | some p =>
        obtain ⟨a, b, c, u5⟩ := p
        rw [hh] at h
        dsimp only at h
        cases hdot : eatChar '.' u5 with
        | none => rw [hdot] at h; dsimp only at h; cases h
        | some u6 =>
          rw [hdot] at h
          dsimp only at h
          cases hrun : eatDigitsRun 3 6 u6 with
          | none => rw [hrun] at h; dsimp only at h; cases h
          | some u7 =>
            rw [hrun] at h
            dsimp only at h
            exact fromiso_aware_frac (by norm_num) (by norm_num) hd hsp hh hdot hrun h hf

/-- Under a pattern-3 start (two digits then a dot) every parser that
insists on a four-digit year fails. -/
theorem eatDate_none_of_dot {l : List Char} (hl : ∃ c1 c2 r, l = c1 :: c2 :: '.' :: r) :
    eatDate l = none := by
  obtain ⟨c1, c2, r, hr⟩ := hl
  rw [hr]
  simp [eatDate, eatDigits4_dot]


/-- C6: in the fallback stage of `parse_timestamp` a regex match only
qualifies the string for a re-parse by `datetime.fromisoformat`, so a
string of the localized `DD.MM.YYYY HH:MM:SS(UTC+N)` form (pattern 3 of
`regex_patterns`), on which the general `arrow` parser also fails and
which is not valid ISO syntax, always yields `None`. -/
theorem c6_localized_pattern_yields_none :
    ∀ s : String, matchP3 s.data = true → parse_timestamp (some s) = none := by
  intro s h
  have hl := matchP3_start h
  have hdate : eatDate s.data = none := eatDate_none_of_dot hl
  have harrow : arrowGet s = none := by simp [arrowGet, hdate]
  have hiso : fromisoformat s = none := by simp [fromisoformat, hdate]
  have hp1 : matchP1 s.data = false := by simp [matchP1, hdate]
  have hp2 : matchP2 s.data = false := by simp [matchP2, hdate]
  have hp4 : matchP4 s.data = false := by simp [matchP4, hdate]
  have hne : ¬(s = "") := by
    intro he
    obtain ⟨c1, c2, r, hr⟩ := hl
    rw [he] at hr
    simp at hr
  simp [parse_timestamp, hne, harrow, regex_patterns, List.findSome?, hp1, hp2, hp4, h, hiso]

/-- Witness for C6 at the concrete localized string
`01.02.2024 03:04:05(UTC+2)`. -/
theorem c6_localized_pattern_yields_none_witness :
    matchP3 "01.02.2024 03:04:05(UTC+2)".data = true ∧
    parse_timestamp (some "01.02.2024 03:04:05(UTC+2)") = none :=
  ⟨by decide, c6_localized_pattern_yields_none "01.02.2024 03:04:05(UTC+2)" (by decide)⟩

/-- C5: `parse_timestamp` is total over string-or-null inputs: every
result is null or a timezone-aware datetime (the exceptions of the
general parse and of the ISO re-parse are caught inside the function,
which the model's `Option` result reflects), and a null or empty input
returns null immediately, before any parse is attempted. -/
theorem c5_parse_timestamp_total_and_aware :
    ∀ input : Option String,
      (parse_timestamp input = none ∨
        ∃ dt, parse_timestamp input = some dt ∧ dt.tzOffsetMinutes.isSome = true) ∧
      parse_timestamp none = none ∧ parse_timestamp (some "") = none := by
  intro input
  refine ⟨?_, rfl, by simp [parse_timestamp]⟩
  cases input with
  | none => exact Or.inl rfl
  | some s =>
    by_cases hse : s = ""
    · subst hse; exact Or.inl (by simp [parse_timestamp])
    · cases ha : arrowGet s with
      | some dt =>
        exact Or.inr ⟨dt, by simp [parse_timestamp, hse, ha], arrowGet_aware ha⟩
      | none =>
        cases hfi : fromisoformat s with
        | none =>
          refine Or.inl ?_
          simp only [parse_timestamp, hse, if_neg hse, ha]
          simp [regex_patterns, List.findSome?, hfi]
        | some dt0 =>
          by_cases h1 : matchP1 s.data
          · refine Or.inr ⟨dt0, ?_, fromiso_aware_p1 h1 hfi⟩
            simp [parse_timestamp, hse, ha, regex_patterns, List.findSome?, h1, hfi]
          · by_cases h2 : matchP2 s.data
            · refine Or.inr ⟨dt0, ?_, fromiso_aware_p2 h2 hfi⟩
              simp [parse_timestamp, hse, ha, regex_patterns, List.findSome?, h1, h2, hfi]
            · by_cases h3 : matchP3 s.data
              · exfalso
                have hd0 := eatDate_none_of_dot (matchP3_start h3)
                simp [fromisoformat, hd0] at hfi
              · by_cases h4 : matchP4 s.data
                · refine Or.inr ⟨dt0, ?_, fromiso_aware_p4 h4 hfi⟩
                  simp [parse_timestamp, hse, ha, regex_patterns, List.findSome?,
                        h1, h2, h3, h4, hfi]
                · refine Or.inl ?_
                  simp [parse_timestamp, hse, ha, regex_patterns, List.findSome?,
                        h1, h2, h3, h4]


/-- Counterexample to C7: a placemark with no `TimeStamp` element, a
display name that contains `UTC` but does not parse, and a cleaned
description that also contains `UTC` (and is claimed to be scanned when
the timestamp is "still absent").  The `elif` at line 481 records the
attempt marker `<name>` and never attempts the description — the marker
would be `<description>` had stage (c) run — so the claimed fall-through
from a failed name scan to the description does not exist. -/
theorem c7_counterexample_name_gate_blocks_description :
    recover_timestamp "(r) - UTC x" "UTC 2024-01-02 03:04:05+00:00" none =
      (none, some "<name>") ∧
    pyInStr "UTC" "UTC 2024-01-02 03:04:05+00:00" = true := by
  constructor
  · decide
  · decide

/-- C7 (amended): the timestamp recovery order of `process_kml_file`:
(a) a non-empty `TimeStamp/when` text that parses wins at once and no
other source is attempted; (b) otherwise a display name containing
`UTC` routes to a parse of the whole name; (c) the cleaned description
is parsed only when the timestamp is still absent AND the name does
not contain `UTC` (the `elif` at line 481) and the description contains
`UTC`; (d) with no applicable source the timestamp is null.  The first
hypothesis of (b)-(d) states that stage (a) produced nothing: the
element or text is absent, empty, or unparseable. -/
theorem c7_recovery_order_amended :
    ∀ (name descText : String) (tsw : Option (Option String)),
      (∀ w dt, tsw = some (some w) → w ≠ "" → parse_timestamp (some w) = some dt →
        recover_timestamp name descText tsw = (some dt, some "<TimeStamp>")) ∧
      ((∀ w, tsw = some (some w) → w = "" ∨ parse_timestamp (some w) = none) →
        pyInStr "UTC" name = true →
        recover_timestamp name descText tsw = (parse_timestamp (some name), some "<name>")) ∧
      ((∀ w, tsw = some (some w) → w = "" ∨ parse_timestamp (some w) = none) →
        pyInStr "UTC" name = false → pyInStr "UTC" descText = true →
        recover_timestamp name descText tsw =
          (parse_timestamp (some descText), some "<description>")) ∧
      ((∀ w, tsw = some (some w) → w = "" ∨ parse_timestamp (some w) = none) →
        pyInStr "UTC" name = false → pyInStr "UTC" descText = false →
        (recover_timestamp name descText tsw).1 = none) := by
  intro name descText tsw
  refine ⟨?_, ?_, ?_, ?_⟩
  · intro w dt hw hne hp
    subst hw
    simp [recover_timestamp, hne, hp]
  · intro ha hn
    match tsw with
    | none => simp [recover_timestamp, hn]
    | some none => simp [recover_timestamp, hn]
    | some (some w) =>
      rcases ha w rfl with he | hp
      · subst he; simp [recover_timestamp, hn]
      · by_cases he : w = ""
        · subst he; simp [recover_timestamp, hn]
        · simp [recover_timestamp, he, hp, hn]
  · intro ha hn hd
    match tsw with
    | none => simp [recover_timestamp, hn, hd]
    | some none => simp [recover_timestamp, hn, hd]
    | some (some w) =>
      rcases ha w rfl with he | hp
      · subst he; simp [recover_timestamp, hn, hd]
      · by_cases he : w = ""
        · subst he; simp [recover_timestamp, hn, hd]
        · simp [recover_timestamp, he, hp, hn, hd]
  · intro ha hn hd
    match tsw with
    | none => simp [recover_timestamp, hn, hd]
    | some none => simp [recover_timestamp, hn, hd]
    | some (some w) =>
      rcases ha w rfl with he | hp
      · subst he; simp [recover_timestamp, hn, hd]
      · by_cases he : w = ""
        · subst he; simp [recover_timestamp, hn, hd]
        · simp [recover_timestamp, he, hp, hn, hd]

/-- Witness for C7's amended recovery order at a concrete input: no
`TimeStamp` element and a name containing `UTC` route to the name
parse with the `<name>` marker. -/
theorem c7_recovery_order_amended_witness :
    recover_timestamp "(r) - UTC x" "x" none =
      (parse_timestamp (some "(r) - UTC x"), some "<name>") :=
  (c7_recovery_order_amended "(r) - UTC x" "x" none).2.1
    (fun w hw => by cases hw) (by decide)

/-- Fixture for C1: one source file whose single placemark carries a
parseable `TimeStamp/when` but a one-component `coordinates` text. -/
def c1_ctx : MergeCtx :=
  { fs := ⟨[]⟩
  , cwd := "/base"
  , base_path := "/base"
  , fileContents := fun p =>
      if p = "/base/b.kml" then
        [⟨"", "", some (some "2024-01-01T12:00:00Z"), some (some "10.0")⟩]
      else []
  , meta := fun _ => ⟨"", "", 0, ""⟩ }

/-- C1 fails on the code: `total_points` is incremented only together
with a retained valid point (line 497), while `points_with_timestamps`
is counted before the coordinate check (line 486), so a placemark with
a parseable timestamp and unusable coordinates yields a statistics row
with `points_with_timestamps = 1 > total_points = 0`, violating the
claimed invariant `points_with_timestamps ≤ total_points`.  (Its other
half, `valid_points ≤ total_points`, does hold: the two counters are
updated together at lines 493-497 and are in fact always equal.) -/
theorem c1_invariant_fails_on_code :
    ∃ res st,
      merge_kml_files c1_ctx ["b.kml"] [("b.kml", "#FF0000")] [("b.kml", "r")] = some res ∧
      res.statistics = [st] ∧
      st.total_points = 0 ∧ st.points_with_timestamps = 1 ∧ st.valid_points = 0 ∧
      ¬(st.points_with_timestamps ≤ st.total_points) := by
  refine ⟨_, _, rfl, rfl, ?_, ?_, ?_, ?_⟩ <;> decide

/-- Fixture for C2, the spec's own scenario: file A has one placemark
with name `Pt1`, coordinates `10.0,20.0,0` and `TimeStamp/when`
`2024-01-01T12:00:00Z`; file B has one placemark with no coordinates
element. -/
def c2_ctx : MergeCtx :=
  { fs := ⟨[]⟩
  , cwd := "/base"
  , base_path := "/base"
  , fileContents := fun p =>
      if p = "/base/a.kml" then
        [⟨"Pt1", "", some (some "2024-01-01T12:00:00Z"), some (some "10.0,20.0,0")⟩]
      else if p = "/base/b.kml" then
        [⟨"", "", none, none⟩]
      else []
  , meta := fun _ => ⟨"", "", 0, ""⟩ }

/-- C2 fails on the code: merging A and B yields the claimed merged
document with exactly one placemark (A's) and the claimed row for A,
but B's row is `total_points = 0` — not `1` as claimed — because the
`total_points` counter at line 497 is only reached for placemarks whose
coordinates are usable (and the logging line 504 even raises `NameError`
on the unbound `coords` for B's placemark, aborting B's stream). -/
theorem c2_uncounted_placemark_without_coordinates :
    ∃ res,
      merge_kml_files c2_ctx ["a.kml", "b.kml"]
        [("a.kml", "#FF0000"), ("b.kml", "#0000FF")]
        [("a.kml", "A"), ("b.kml", "B")] = some res ∧
      res.statistics.map
        (fun st => (st.file, st.total_points, st.points_with_timestamps, st.valid_points)) =
        [("a.kml", 1, 1, 1), ("b.kml", 0, 0, 0)] ∧
      res.placemarks.length = 1 := by
  refine ⟨_, rfl, ?_, ?_⟩ <;> decide


/-! Lemmas for the positional color assignment. -/

theorem foldl_assignStep_none (files : List String) (L : List Nat) :
    L.foldl (assignStep files) none = none := by
  induction L with
  | nil => rfl
  | cons a L ih => simpa [assignStep] using ih

theorem zip_take_right {α β : Type} :
    ∀ (l1 : List α) (l2 : List β), l1.zip (l2.take l1.length) = l1.zip l2 := by
  intro l1
  induction l1 with
  | nil => intro l2; simp
  | cons a l ih =>
    intro l2
    cases l2 with
    | nil => simp
    | cons b l2 => simp [ih]

theorem zip_map_snd {α β : Type} :
    ∀ (l1 : List α) (l2 : List β), (l1.zip l2).map Prod.snd = l2.take l1.length := by
  intro l1
  induction l1 with
  | nil => intro l2; simp
  | cons a l ih =>
    intro l2
    cases l2 with
    | nil => simp
    | cons b l2 => simp [ih]

theorem nodup_getElem_not_mem_take {α : Type} (l : List α) (hnd : l.Nodup) (n : Nat)
    (hn : n < l.length) : l[n] ∉ l.take n := by
  intro hmem
  have hsplit : l.take n ++ l.drop n = l := List.take_append_drop n l
  have hdisj : (l.take n).Disjoint (l.drop n) :=
    List.disjoint_of_nodup_append (by rw [hsplit]; exact hnd)
  have hdrop : l[n] ∈ l.drop n := by
    rw [List.drop_eq_getElem_cons hn]
    exact List.mem_cons_self _ _
  exact hdisj hmem hdrop

theorem assign_fold_take (files : List String) (hnd : files.Nodup) :
    ∀ n, n ≤ files.length → n ≤ 10 →
      (List.range n).foldl (assignStep files) (some []) =
        some ((files.take n).zip ((COLORS.map Prod.snd).take n)) := by
  intro n
  induction n with
  | zero => intro _ _; simp
  | succ n ih =>
    intro hn h10
    have hn' : n ≤ files.length := Nat.le_of_succ_le hn
    have h10' : n ≤ 10 := Nat.le_of_succ_le h10
    have hlt : n < files.length := hn
    have hplen : n < (COLORS.map Prod.snd).length := by
      simp only [List.length_map]
      have : COLORS.length = 10 := by decide
      omega
    rw [List.range_succ, List.foldl_append, ih hn' h10']
    simp only [List.foldl_cons, List.foldl_nil]
    have hkeys : ((files.take n).zip ((COLORS.map Prod.snd).take n)).map Prod.fst =
        files.take n := by
      apply List.map_fst_zip
      simp only [List.length_take]
      have : (COLORS.map Prod.snd).length = 10 := by decide
      omega
    have hnotmem : files[n] ∉ files.take n := nodup_getElem_not_mem_take files hnd n hlt
    have hany : (((files.take n).zip ((COLORS.map Prod.snd).take n)).any
        (fun e => e.1 == files.getD n "")) = false := by
      rw [List.any_eq_false]
      intro e he
      rw [List.getD_eq_getElem _ _ hlt]
      intro heq
      have he1 : e.1 = files[n] := eq_of_beq heq
      have hmem : e.1 ∈ files.take n := by
        rw [← hkeys]; exact List.mem_map_of_mem Prod.fst he
      rw [he1] at hmem
      exact hnotmem hmem
    simp only [assignStep, List.getElem?_eq_getElem hplen, dictInsert, hany, Bool.false_eq_true,
      if_false, Option.some.injEq]
    rw [List.getD_eq_getElem _ _ hlt]
    have htf : files.take (n + 1) = files.take n ++ [files[n]] := by
      rw [List.take_succ, List.getElem?_eq_getElem hlt]
      rfl
    have htp : (COLORS.map Prod.snd).take (n + 1) =
        (COLORS.map Prod.snd).take n ++ [(COLORS.map Prod.snd)[n]] := by
      rw [List.take_succ, List.getElem?_eq_getElem hplen]
      rfl
    rw [htf, htp, List.zip_append]
    · rfl
    · simp only [List.length_take]
      have : (COLORS.map Prod.snd).length = 10 := by decide
      omega

theorem assign_fold_none_of_ge (files : List String) (hnd : files.Nodup) :
    ∀ n, 11 ≤ n → n ≤ files.length →
      (List.range n).foldl (assignStep files) (some []) = none := by
  intro n h11
  induction n, h11 using Nat.le_induction with
  | base =>
    intro hlen
    have h10 : (10 : Nat) ≤ files.length := by omega
    have : (11 : Nat) = 10 + 1 := rfl
    rw [this, List.range_succ, List.foldl_append,
      assign_fold_take files hnd 10 h10 (by omega)]
    simp [assignStep, List.getElem?_eq_none (by decide : (COLORS.map Prod.snd).length ≤ 10)]
  | succ n hge ih =>
    intro hlen
    rw [List.range_succ, List.foldl_append, ih (by omega)]
    simp [foldl_assignStep_none files [n]]

/-- C4: `assign_colors_to_files` assigns colors strictly by list
position from the fixed ordered ten-color palette — source files have
unique names (spec data model), hence the `Nodup` hypothesis — so for
`k ≤ 10` files the mapping pairs the i-th file with the i-th palette
value, the assigned colors are pairwise distinct and in palette order;
for more than 10 files the comprehension raises `IndexError` before
the mapping is produced (modelled as `none`), mutating nothing. -/
theorem c4_assign_colors_positional :
    ∀ files : List String, files.Nodup →
      (files.length ≤ 10 →
        assign_colors_to_files files = some (files.zip (COLORS.map Prod.snd)) ∧
        ((files.zip (COLORS.map Prod.snd)).map Prod.snd).Nodup ∧
        (files.zip (COLORS.map Prod.snd)).map Prod.snd =
          (COLORS.map Prod.snd).take files.length) ∧
      (10 < files.length → assign_colors_to_files files = none) := by
  intro files hnd
  constructor
  · intro hle
    refine ⟨?_, ?_, zip_map_snd files _⟩
    · have h := assign_fold_take files hnd files.length le_rfl hle
      rw [assign_colors_to_files, h, List.take_length, zip_take_right]
    · rw [zip_map_snd]
      exact List.Nodup.sublist (List.take_sublist _ _)
        (by decide : ((COLORS.map Prod.snd)).Nodup)
  · intro hgt
    exact assign_fold_none_of_ge files hnd files.length (by omega) le_rfl

/-- Witness for C4 at concrete inputs: two files get the first two
palette colors; eleven files fail with no mapping produced. -/
theorem c4_assign_colors_positional_witness :
    assign_colors_to_files ["a.kml", "b.kml"] =
      some [("a.kml", "#FF0000"), ("b.kml", "#0000FF")] ∧
    assign_colors_to_files ["f0", "f1", "f2", "f3", "f4", "f5", "f6", "f7", "f8", "f9", "f10"] =
      none := by
  constructor
  · have h := ((c4_assign_colors_positional ["a.kml", "b.kml"] (by decide)).1 (by decide)).1
    rw [h]
    decide
  · exact (c4_assign_colors_positional
      ["f0", "f1", "f2", "f3", "f4", "f5", "f6", "f7", "f8", "f9", "f10"] (by decide)).2
      (by decide)


/-! Structural invariant of the per-file merge fold. -/

theorem dictGet_define_styles {cm : List (String × String)} {f c : String}
    (h : dictGet cm f = some c) : ∃ st, st ∈ define_styles cm ∧ st.id = f := by
  simp only [dictGet, Option.map_eq_some'] at h
  obtain ⟨e, he, _⟩ := h
  have hmem := List.mem_of_find?_eq_some he
  have hp := List.find?_some he
  simp only at hp
  refine ⟨⟨e.1, String.mk (replaceHash e.2.data),
    "http://maps.google.com/mapfiles/kml/pushpin/red-pushpin.png"⟩, ?_, eq_of_beq hp⟩
  simp only [define_styles, List.mem_map]
  exact ⟨e, hmem, rfl⟩

theorem mergeGo_inv (ctx : MergeCtx) (cm rm : List (String × String)) :
    ∀ (fs : List String) (acc res : MergeAcc),
      mergeGo ctx cm rm fs acc = some res →
      res.styles = acc.styles ∧
      (∀ pm ∈ res.placemarks, pm ∈ acc.placemarks ∨
        ∃ f pt, (∃ c, dictGet cm f = some c) ∧
          validate_file_path ctx.fs ctx.cwd ctx.base_path f = true ∧
          pm = make_placemark f pt) ∧
      (∀ row ∈ res.statistics, row ∈ acc.statistics ∨
        (row.mapped_points = row.valid_points ∧
         validate_file_path ctx.fs ctx.cwd ctx.base_path row.file = true)) ∧
      (res.statistics.map (fun st => st.file) =
        acc.statistics.map (fun st => st.file) ++
          fs.filter (fun f => validate_file_path ctx.fs ctx.cwd ctx.base_path f)) ∧
      (res.total_valid_points + (acc.statistics.map (fun st => st.valid_points)).sum =
        acc.total_valid_points + (res.statistics.map (fun st => st.valid_points)).sum) := by
  intro fs
  induction fs with
  | nil =>
    intro acc res h
    simp only [mergeGo, Option.some.injEq] at h
    subst h
    exact ⟨rfl, fun pm hpm => Or.inl hpm, fun row hrow => Or.inl hrow, by simp, by omega⟩
  | cons f fs ih =>
    intro acc res h
    simp only [mergeGo] at h
    cases hstep : mergeStep ctx cm rm acc f with
    | none => rw [hstep] at h; dsimp only at h; cases h
    | some acc2 =>
      rw [hstep] at h
      dsimp only at h
      obtain ⟨hsty, hpms, hrows, hfiles, htot⟩ := ih acc2 res h
      simp only [mergeStep] at hstep
      cases hrm : dictGet rm f with
      | none => rw [hrm] at hstep; dsimp only at hstep; cases hstep
      | some remark =>
        rw [hrm] at hstep
        dsimp only at hstep
        by_cases hv : validate_file_path ctx.fs ctx.cwd ctx.base_path f
        · rw [if_pos hv] at hstep
          cases hcm : dictGet cm f with
          | none => rw [hcm] at hstep; dsimp only at hstep; cases hstep
          | some color =>
            rw [hcm] at hstep
            dsimp only at hstep
            cases hstep
            refine ⟨hsty, ?_, ?_, ?_, ?_⟩
            · intro pm hpm
              rcases hpms pm hpm with hin | hex
              · rcases List.mem_append.mp hin with hin2 | hin2
                · exact Or.inl hin2
                · obtain ⟨pt, _, hpt⟩ := List.mem_map.mp hin2
                  exact Or.inr ⟨f, pt, ⟨color, hcm⟩, hv, hpt.symm⟩
              · exact Or.inr hex
            · intro row hrow
              rcases hrows row hrow with hin | hok
              · rcases List.mem_append.mp hin with hin2 | hin2
                · exact Or.inl hin2
                · simp only [List.mem_singleton] at hin2
                  subst hin2
                  exact Or.inr ⟨rfl, hv⟩
              · exact Or.inr hok
            · rw [hfiles]
              simp [hv]
            · simp only [List.map_append, List.sum_append, List.map_cons, List.map_nil,
                List.sum_cons, List.sum_nil] at htot ⊢
              omega
        · rw [if_neg hv] at hstep
          cases hstep
          refine ⟨hsty, hpms, hrows, ?_, htot⟩
          rw [hfiles]
          simp [hv]

/-- C8: in every merged document `merge_kml_files` produces, each
emitted placemark's `styleUrl` names a style that exists in the same
document (the style with id equal to the contributing file name); a
placemark is only emitted for a file found in `color_map` (line 542),
and `define_styles` created one style per `color_map` entry. -/
theorem c8_every_styleurl_resolves :
    ∀ (ctx : MergeCtx) (files : List String) (color_map remarks : List (String × String))
      (res : MergeAcc),
      merge_kml_files ctx files color_map remarks = some res →
      ∀ pm ∈ res.placemarks, ∃ st, st ∈ res.styles ∧ pm.styleUrl = "#" ++ st.id := by
  intro ctx files cm rm res h pm hpm
  obtain ⟨hsty, hpms, _, _, _⟩ := mergeGo_inv ctx cm rm files _ res h
  rcases hpms pm hpm with habs | ⟨f, pt, ⟨c, hc⟩, _, hpm_eq⟩
  · simp at habs
  · obtain ⟨st, hst, hid⟩ := dictGet_define_styles hc
    refine ⟨st, ?_, ?_⟩
    · rw [hsty]; exact hst
    · rw [hpm_eq, hid]; rfl

/-- C9: every statistics row has `mapped_points` equal to
`valid_points` (lines 549-550 compute both from the same list), and
the run-level total of mapped points (line 578, a sum of the
`valid_points` column) equals the sum of either column; the running
`total_valid_points` accumulator coincides with the column sum. -/
theorem c9_mapped_points_equal_valid_points :
    ∀ (ctx : MergeCtx) (files : List String) (color_map remarks : List (String × String))
      (res : MergeAcc),
      merge_kml_files ctx files color_map remarks = some res →
      (∀ row ∈ res.statistics, row.mapped_points = row.valid_points) ∧
      total_mapped_points res.statistics =
        (res.statistics.map (fun st => st.valid_points)).sum ∧
      total_mapped_points res.statistics =
        (res.statistics.map (fun st => st.mapped_points)).sum ∧
      res.total_valid_points = (res.statistics.map (fun st => st.valid_points)).sum := by
  intro ctx files cm rm res h
  obtain ⟨_, _, hrows, _, htot⟩ := mergeGo_inv ctx cm rm files _ res h
  have hrow : ∀ row ∈ res.statistics, row.mapped_points = row.valid_points := by
    intro row hr
    rcases hrows row hr with habs | hok
    · simp at habs
    · exact hok.1
  refine ⟨hrow, rfl, ?_, ?_⟩
  · rw [total_mapped_points]
    exact congrArg List.sum (List.map_congr_left (fun row hr => (hrow row hr).symm))
  · simpa using htot

/-- C10: every placemark written into the merged document is built by
`make_placemark`, which always creates a `TimeStamp` element with a
`when` child (lines 565-566); for a retained point with a null
timestamp the `when` text is never assigned (the guard at line 567), so
the element stays empty rather than being omitted, and for a known
timestamp the text is its `isoformat` rendering. -/
theorem c10_when_element_always_emitted :
    ∀ (ctx : MergeCtx) (files : List String) (color_map remarks : List (String × String))
      (res : MergeAcc),
      merge_kml_files ctx files color_map remarks = some res →
      ∀ pm ∈ res.placemarks, ∃ f pt, pm = make_placemark f pt ∧
        ((pt.timestamp = none ∧ pm.timeStampWhen = none) ∨
         (∃ d, pt.timestamp = some d ∧ pm.timeStampWhen = some (isoformat d))) := by
  intro ctx files cm rm res h pm hpm
  obtain ⟨_, hpms, _, _, _⟩ := mergeGo_inv ctx cm rm files _ res h
  rcases hpms pm hpm with habs | ⟨f, pt, _, _, hpm_eq⟩
  · simp at habs
  · refine ⟨f, pt, hpm_eq, ?_⟩
    cases hts : pt.timestamp with
    | none => exact Or.inl ⟨rfl, by rw [hpm_eq]; simp [make_placemark, hts]⟩
    | some d => exact Or.inr ⟨d, rfl, by rw [hpm_eq]; simp [make_placemark, hts]⟩


/-- C3 (amended): `validate_file_path` checks that the path, made
absolute against the current working directory and normalized
lexically only (`os.path.abspath`: traversal components are resolved,
symbolic links are not), is not itself a symbolic link and lies under
the base directory; within `merge_kml_files` exactly the files passing
this check contribute a statistics row — in input order, so an
excluded file does not stop the remaining files — and every emitted
placemark comes from a file passing it. -/
theorem c3_amended_lexical_validation_excludes :
    ∀ (ctx : MergeCtx) (files : List String) (color_map remarks : List (String × String))
      (res : MergeAcc),
      merge_kml_files ctx files color_map remarks = some res →
      res.statistics.map (fun st => st.file) =
        files.filter (fun f => validate_file_path ctx.fs ctx.cwd ctx.base_path f) ∧
      ∀ pm ∈ res.placemarks, ∃ f pt,
        validate_file_path ctx.fs ctx.cwd ctx.base_path f = true ∧
        pm = make_placemark f pt := by
  intro ctx files cm rm res h
  obtain ⟨_, hpms, _, hfiles, _⟩ := mergeGo_inv ctx cm rm files _ res h
  constructor
  · simpa using hfiles
  · intro pm hpm
    rcases hpms pm hpm with habs | ⟨f, pt, _, hv, hpm_eq⟩
    · simp at habs
    · exact ⟨f, pt, hv, hpm_eq⟩

/-- Fixture for the C3 counterexample: the working directory sits
inside the base directory, and the selected file name contains a
traversal component.  The placemark stream is keyed by the path the
source opens, `os.path.join(base_path, file)`. -/
def c3_ctx : MergeCtx :=
  { fs := ⟨[]⟩
  , cwd := "/base/a/b"
  , base_path := "/base"
  , fileContents := fun p =>
      if p = "/base/../ok.kml" then
        [⟨"Pt1", "", none, some (some "10.0,20.0,0")⟩]
      else []
  , meta := fun _ => ⟨"", "", 0, ""⟩ }

/-- Counterexample to C3: the file `../ok.kml` passes
`validate_file_path` — `os.path.abspath` joins it to the current
working directory `/base/a/b`, normalizing to `/base/a/ok.kml`, which
is no symlink and lies under `/base` — and contributes a placemark to
the merged document, yet the path actually opened,
`os.path.join(base_path, file) = /base/../ok.kml`, resolves (there are
no symbolic links at all here, so resolution is pure traversal) to
`/ok.kml`, which is outside the base directory.  The claim that every
contributing source path resolves into the base directory is false. -/
theorem c3_counterexample_traversal_escapes_base :
    ∃ res,
      merge_kml_files c3_ctx ["../ok.kml"] [("../ok.kml", "#FF0000")] [("../ok.kml", "r")] =
        some res ∧
      res.placemarks ≠ [] ∧
      validate_file_path c3_ctx.fs c3_ctx.cwd c3_ctx.base_path "../ok.kml" = true ∧
      resolvePath c3_ctx.fs (abspath c3_ctx.cwd (pyJoin c3_ctx.base_path "../ok.kml")) =
        ["ok.kml"] ∧
      commonPathEqBase (abspath c3_ctx.cwd c3_ctx.base_path) ["ok.kml"] = false := by
  refine ⟨_, rfl, ?_, ?_, ?_, ?_⟩ <;> decide

/-- Witness for C3's amended statement at the concrete two-file merge
of the C2 fixture, where both files pass validation. -/
theorem c3_amended_lexical_validation_excludes_witness :
    ∃ res,
      merge_kml_files c2_ctx ["a.kml", "b.kml"]
        [("a.kml", "#FF0000"), ("b.kml", "#0000FF")]
        [("a.kml", "A"), ("b.kml", "B")] = some res ∧
      res.statistics.map (fun st => st.file) =
        ["a.kml", "b.kml"].filter
          (fun f => validate_file_path c2_ctx.fs c2_ctx.cwd c2_ctx.base_path f) := by
  refine ⟨_, rfl, ?_⟩
  exact (c3_amended_lexical_validation_excludes c2_ctx ["a.kml", "b.kml"]
    [("a.kml", "#FF0000"), ("b.kml", "#0000FF")]
    [("a.kml", "A"), ("b.kml", "B")] _ rfl).1

/-- The retained geopoint of file A in the C2 fixture, used to name
concrete output placemarks in witnesses. -/
def ptA : GeoPoint :=
  ⟨⟨100, -1⟩, ⟨200, -1⟩, some ⟨2024, 1, 1, 12, 0, 0, 0, some 0⟩, "(A) - Pt1", ""⟩

/-- Witness for C8 at the concrete two-file merge of the C2 fixture:
the style referenced by A's emitted placemark exists in the document. -/
theorem c8_every_styleurl_resolves_witness :
    ∃ res st,
      merge_kml_files c2_ctx ["a.kml", "b.kml"]
        [("a.kml", "#FF0000"), ("b.kml", "#0000FF")]
        [("a.kml", "A"), ("b.kml", "B")] = some res ∧
      st ∈ res.styles ∧ (make_placemark "a.kml" ptA).styleUrl = "#" ++ st.id := by
  obtain ⟨st, hst, hurl⟩ := c8_every_styleurl_resolves c2_ctx ["a.kml", "b.kml"]
    [("a.kml", "#FF0000"), ("b.kml", "#0000FF")]
    [("a.kml", "A"), ("b.kml", "B")] _ rfl (make_placemark "a.kml" ptA) (by decide)
  exact ⟨_, st, rfl, hst, hurl⟩

/-- Witness for C9 at the concrete two-file merge of the C2 fixture. -/
theorem c9_mapped_points_equal_valid_points_witness :
    ∃ res,
      merge_kml_files c2_ctx ["a.kml", "b.kml"]
        [("a.kml", "#FF0000"), ("b.kml", "#0000FF")]
        [("a.kml", "A"), ("b.kml", "B")] = some res ∧
      total_mapped_points res.statistics =
        (res.statistics.map (fun st => st.mapped_points)).sum ∧
      res.total_valid_points = (res.statistics.map (fun st => st.valid_points)).sum := by
  obtain ⟨_, _, h3, h4⟩ := c9_mapped_points_equal_valid_points c2_ctx ["a.kml", "b.kml"]
    [("a.kml", "#FF0000"), ("b.kml", "#0000FF")]
    [("a.kml", "A"), ("b.kml", "B")] _ rfl
  exact ⟨_, rfl, h3, h4⟩

/-- Witness for C10 at the concrete two-file merge of the C2 fixture:
A's emitted placemark decomposes as `make_placemark` with the known
timestamp rendered by `isoformat` into the `when` text. -/
theorem c10_when_element_always_emitted_witness :
    ∃ res,
      merge_kml_files c2_ctx ["a.kml", "b.kml"]
        [("a.kml", "#FF0000"), ("b.kml", "#0000FF")]
        [("a.kml", "A"), ("b.kml", "B")] = some res ∧
      ∃ f pt, make_placemark "a.kml" ptA = make_placemark f pt ∧
        ((pt.timestamp = none ∧ (make_placemark "a.kml" ptA).timeStampWhen = none) ∨
         (∃ d, pt.timestamp = some d ∧
           (make_placemark "a.kml" ptA).timeStampWhen = some (isoformat d))) := by
  have h := c10_when_element_always_emitted c2_ctx ["a.kml", "b.kml"]
    [("a.kml", "#FF0000"), ("b.kml", "#0000FF")]
    [("a.kml", "A"), ("b.kml", "B")] _ rfl (make_placemark "a.kml" ptA) (by decide)
  exact ⟨_, rfl, h⟩

end UFEDKMLstacker
